import Mathlib

/-!
# Verification of the TapCoin server core (src/server.js)

Shallow embedding of the state-synchronization pipeline of `src/server.js`:
the in-memory user store, `getUser`, `calculateLevel`, `validateInitData`,
`checkRateLimit`, `handleTap` and `handleLeaderboard`.

Modelling conventions:
* JavaScript numbers are modelled by `JSNumber` (`nan`, `posInf`, `negInf`, or a
  finite rational).  All coin values reachable in the claims are small integers,
  exactly representable in IEEE doubles, so rational arithmetic agrees with the
  source's double arithmetic on them.
* JSON values that can populate the request-body fields are modelled by `JVal`
  (undefined, null, booleans, numbers, strings).  JavaScript truthiness and the
  `ToNumber` coercion (applied by `Math.floor`) are modelled by `truthy` and
  `toNumber`; string-to-number follows the JS grammar for whitespace, signed
  decimal literals with optional fraction/exponent, `Infinity`, and unsigned
  hex/octal/binary literals (Unicode whitespace beyond the ASCII set is not
  modelled).
* The two `Map`s (`users`, `rateLimits`) are association lists in insertion
  order: `Map.get` is first-match lookup, `Map.set` updates in place or appends.
* `Date.now()` is passed in as an explicit `now : Int` argument.
* HMAC-SHA256 (`crypto.createHmac(...).digest('hex')`) is an abstract parameter
  `hmacHex : String → String → String` (key, message ↦ hex digest); the claims
  checked here do not depend on its value.
* `initData` is `Option String` (`none` stands for any falsy value: absent,
  null, empty string).  `URLSearchParams` parsing is modelled with `&`-splitting,
  first-`=` splitting, `+`-to-space and `%XX` percent-decoding (single-byte
  decoding; multi-byte UTF-8 escapes are outside the modelled domain).
  `a.localeCompare(b)` ordering is modelled as code-point string order; none of
  the claims depend on the collation of the joined check string.
-/

namespace TapCoin

/-! Kernel-computable rational operations.  The standard `Rat.add`, `Rat.mul`
and `Rat.blt` are `@[irreducible]` in this toolchain, so concrete runs could
not be checked by `decide`; these wrappers compute the same values through
`mkRat` and integer cross-multiplication, and are proved equal to the standard
operations below. -/

/-- Rational addition through `mkRat` (equals `a + b`). -/
def qAdd (a b : ℚ) : ℚ := mkRat (a.num * b.den + b.num * a.den) (a.den * b.den)

/-- Rational multiplication through `mkRat` (equals `a * b`). -/
def qMul (a b : ℚ) : ℚ := mkRat (a.num * b.num) (a.den * b.den)

/-- Rational strict comparison by cross-multiplication (equals `a < b`). -/
def qLtB (a b : ℚ) : Bool := decide (a.num * b.den < b.num * a.den)

/-- Rational comparison by cross-multiplication (equals `a ≤ b`). -/
def qLeB (a b : ℚ) : Bool := decide (a.num * b.den ≤ b.num * a.den)

/-- A JavaScript number: NaN, the two infinities, or a finite value. -/
inductive JSNumber : Type
  | nan : JSNumber
  | posInf : JSNumber
  | negInf : JSNumber
  | fin : ℚ → JSNumber
deriving DecidableEq

/-- A JSON/JS value as it may appear in a request-body field. -/
inductive JVal : Type
  | undef : JVal
  | jnull : JVal
  | jbool : Bool → JVal
  | jnum : JSNumber → JVal
  | jstr : String → JVal
deriving DecidableEq

/-- JS strict comparison `a > b` (false whenever either side is NaN). -/
def jsGtB : JSNumber → JSNumber → Bool
  | .nan, _ => false
  | _, .nan => false
  | .posInf, .posInf => false
  | .posInf, .negInf => true
  | .posInf, .fin _ => true
  | .negInf, _ => false
  | .fin _, .posInf => false
  | .fin _, .negInf => true
  | .fin a, .fin b => qLtB b a

/-- JS comparison `a >= b` (false whenever either side is NaN). -/
def jsGeB : JSNumber → JSNumber → Bool
  | .nan, _ => false
  | _, .nan => false
  | .posInf, _ => true
  | .negInf, .posInf => false
  | .negInf, .negInf => true
  | .negInf, .fin _ => false
  | .fin _, .posInf => false
  | .fin _, .negInf => true
  | .fin a, .fin b => qLeB b a

/-- JS addition. -/
def jsAdd : JSNumber → JSNumber → JSNumber
  | .nan, _ => .nan
  | _, .nan => .nan
  | .posInf, .negInf => .nan
  | .negInf, .posInf => .nan
  | .posInf, _ => .posInf
  | _, .posInf => .posInf
  | .negInf, _ => .negInf
  | _, .negInf => .negInf
  | .fin a, .fin b => .fin (qAdd a b)

/-- JS negation. -/
def jsNeg : JSNumber → JSNumber
  | .nan => .nan
  | .posInf => .negInf
  | .negInf => .posInf
  | .fin a => .fin (-a)

/-- JS subtraction `a - b`. -/
def jsSub (a b : JSNumber) : JSNumber := jsAdd a (jsNeg b)

/-- Model of `Math.floor`. -/
def jsFloor : JSNumber → JSNumber
  | .nan => .nan
  | .posInf => .posInf
  | .negInf => .negInf
  | .fin a => .fin ((Rat.floor a : ℤ) : ℚ)

/-- Model of `Math.max` on two arguments: NaN if either is NaN, otherwise the larger. -/
def jsMaxN (a b : JSNumber) : JSNumber :=
  if a = .nan ∨ b = .nan then .nan
  else if jsGtB b a then b else a

/-- Model of `Math.min` on two arguments: NaN if either is NaN, otherwise the smaller. -/
def jsMinN (a b : JSNumber) : JSNumber :=
  if a = .nan ∨ b = .nan then .nan
  else if jsGtB a b then b else a

/-- JS truthiness of a value. -/
def truthy : JVal → Bool
  | .undef => false
  | .jnull => false
  | .jbool b => b
  | .jnum .nan => false
  | .jnum (.fin q) => decide (q ≠ 0)
  | .jnum .posInf => true
  | .jnum .negInf => true
  | .jstr s => decide (s ≠ "")

/-- ASCII whitespace stripped by JS `ToNumber` on strings. -/
def jsWhite (c : Char) : Bool :=
  c = ' ' || c = '\t' || c = '\n' || c = '\r' || c = '\x0b' || c = '\x0c'

/-- Value of a list of decimal digits. -/
def digitsVal (l : List Char) : ℕ :=
  l.foldl (fun a c => a * 10 + (c.toNat - 48)) 0

/-- Value of a hex digit. -/
def hexDigitVal (c : Char) : ℕ :=
  if c.isDigit then c.toNat - 48
  else if 'a' ≤ c ∧ c ≤ 'f' then c.toNat - 87
  else c.toNat - 55

/-- Is a hex digit. -/
def isHexDigitB (c : Char) : Bool :=
  c.isDigit || ('a' ≤ c && c ≤ 'f') || ('A' ≤ c && c ≤ 'F')

/-- Value of a digit list in base `b` (hex digits allowed). -/
def baseVal (b : ℕ) (l : List Char) : ℕ :=
  l.foldl (fun a c => a * b + hexDigitVal c) 0

/-- Parse an unsigned JS decimal literal `digits [. digits] [e|E [sign] digits]`,
consuming the whole input. -/
def parseUnsignedDec (l : List Char) : Option ℚ :=
  let p1 := l.span (fun c : Char => c.isDigit)
  let ds := p1.1
  let p2 := match p1.2 with
    | '.' :: rest => rest.span (fun c : Char => c.isDigit)
    | _ => ([], p1.2)
  let fs := p2.1
  if ds = [] ∧ fs = [] then none
  else
    let mant : ℚ := mkRat ((digitsVal ds * 10 ^ fs.length + digitsVal fs : ℕ) : ℤ) (10 ^ fs.length)
    match p2.2 with
    | [] => some mant
    | e :: rest =>
      if e = 'e' ∨ e = 'E' then
        let p3 : Bool × List Char := match rest with
          | '+' :: r => (false, r)
          | '-' :: r => (true, r)
          | _ => (false, rest)
        let p4 := p3.2.span (fun c : Char => c.isDigit)
        if p4.1 = [] ∨ p4.2 ≠ [] then none
        else if p3.1 then some (qMul mant (mkRat 1 (10 ^ digitsVal p4.1)))
        else some (qMul mant (mkRat ((10 ^ digitsVal p4.1 : ℕ) : ℤ) 1))
      else none

/-- Parse an optionally signed decimal literal or `Infinity`. -/
def signedDecNum (t : List Char) : JSNumber :=
  let p : Bool × List Char := match t with
    | '+' :: r => (false, r)
    | '-' :: r => (true, r)
    | _ => (false, t)
  if p.2 = ['I', 'n', 'f', 'i', 'n', 'i', 't', 'y'] then
    (if p.1 then .negInf else .posInf)
  else
    match parseUnsignedDec p.2 with
    | some q => .fin (if p.1 then -q else q)
    | none => .nan

/-- JS `ToNumber` on a string: trim whitespace; empty is 0; unsigned hex, octal
and binary literals; otherwise a signed decimal literal or `Infinity`;
anything else is NaN. -/
def strToNumber (s : String) : JSNumber :=
  let t := ((s.toList.dropWhile jsWhite).reverse.dropWhile jsWhite).reverse
  match t with
  | [] => .fin 0
  | '0' :: x :: rest =>
    if (x = 'x' ∨ x = 'X') ∧ rest ≠ [] ∧ rest.all isHexDigitB then
      .fin (baseVal 16 rest)
    else if (x = 'o' ∨ x = 'O') ∧ rest ≠ [] ∧ rest.all (fun c => '0' ≤ c && c ≤ '7') then
      .fin (baseVal 8 rest)
    else if (x = 'b' ∨ x = 'B') ∧ rest ≠ [] ∧ rest.all (fun c => c = '0' || c = '1') then
      .fin (baseVal 2 rest)
    else signedDecNum t
  | _ => signedDecNum t

/-- JS `ToNumber` coercion of a value, as applied by `Math.floor`. -/
def toNumber : JVal → JSNumber
  | .undef => .nan
  | .jnull => .fin 0
  | .jbool b => .fin (if b then 1 else 0)
  | .jnum n => n
  | .jstr s => strToNumber s

/-! ## Query-string parsing (`URLSearchParams`) -/

/-- Split a character list on `&`. -/
def splitAmp : List Char → List (List Char)
  | [] => [[]]
  | '&' :: r => [] :: splitAmp r
  | c :: r =>
    match splitAmp r with
    | [] => [[c]]
    | g :: gs => (c :: g) :: gs

/-- Split a component at the first `=`. -/
def splitEq (l : List Char) : List Char × List Char :=
  let p := l.span (· ≠ '=')
  match p.2 with
  | [] => (p.1, [])
  | _ :: v => (p.1, v)

/-- Decoding of an `application/x-www-form-urlencoded` component: `+` to space and
single-byte `%XX` escapes; invalid escapes are kept literally. -/
def decodeComp : List Char → List Char
  | [] => []
  | '+' :: r => ' ' :: decodeComp r
  | '%' :: a :: b :: r2 =>
    if isHexDigitB a ∧ isHexDigitB b then
      Char.ofNat (16 * hexDigitVal a + hexDigitVal b) :: decodeComp r2
    else '%' :: decodeComp (a :: b :: r2)
  | c :: r => c :: decodeComp r

/-- Parsing as by `new URLSearchParams(s)`: drop a leading `?`, split on `&`, drop empty
components, split each at the first `=`, decode keys and values. -/
def parseQS (s : String) : List (String × String) :=
  let l := s.toList
  let l2 := match l with
    | '?' :: r => r
    | _ => l
  (splitAmp l2).filterMap fun piece =>
    match piece with
    | [] => none
    | _ =>
      let p := splitEq piece
      some (⟨decodeComp p.1⟩, ⟨decodeComp p.2⟩)

/-- Lookup as by `params.get(k)`: first value for the key, else null. -/
def qsGet (ps : List (String × String)) (k : String) : Option String :=
  (ps.find? (fun p => p.1 == k)).map (·.2)

/-! ## A stable insertion sort by a boolean comparator

`Array.prototype.sort(cmp)` is modelled as a stable sort placing `a` before `b`
whenever `cmp(a,b) ≤ 0`; a comparator evaluating to NaN is treated as `0`
(ES `SortCompare`). -/

/-- Insert `x` into `l`, before the first element `y` with `le x y`. -/
def insertLe {α : Type} (le : α → α → Bool) (x : α) : List α → List α
  | [] => [x]
  | y :: ys => if le x y then x :: y :: ys else y :: insertLe le x ys

/-- Stable insertion sort by `le`. -/
def sortLe {α : Type} (le : α → α → Bool) : List α → List α
  | [] => []
  | x :: xs => insertLe le x (sortLe le xs)

/-! ## Data model and handlers -/

/-- One record of the in-memory `users` map (lines 14–27 of `server.js`). -/
structure UserRec : Type where
  userId : JVal
  userName : JVal
  coins : JSNumber
  totalTaps : JSNumber
  level : ℕ
  tapPower : JSNumber
  lastTap : Int
deriving DecidableEq

/-- The default record created on first reference. -/
def defaultUser (now : Int) (userId : JVal) : UserRec :=
  { userId := userId
    userName := .jstr ("Player")
    coins := .fin 0
    totalTaps := .fin 0
    level := 1
    tapPower := .fin 1
    lastTap := now }

/-- First-match association-list lookup (`Map.get`). -/
def lookupA {β : Type} (k : JVal) : List (JVal × β) → Option β
  | [] => none
  | p :: r => if k = p.1 then some p.2 else lookupA k r

/-- The `Map.set` operation: update in place if the key exists, else append. -/
def setAssocA {β : Type} (k : JVal) (v : β) : List (JVal × β) → List (JVal × β)
  | [] => [(k, v)]
  | p :: r => if k = p.1 then (k, v) :: r else p :: setAssocA k v r

/-- The `users` map. -/
abbrev Users : Type := List (JVal × UserRec)

/-- The source's `getUser`: fetch-or-create; a missing key is appended with the default
record (lines 14–27). Returns the record and the updated map. -/
def getUser (now : Int) (userId : JVal) (users : Users) : UserRec × Users :=
  match lookupA userId users with
  | some u => (u, users)
  | none => (defaultUser now userId, users ++ [(userId, defaultUser now userId)])

/-- The source's `calculateLevel` (lines 29–35). -/
def calculateLevel (coins : JSNumber) : ℕ :=
  if jsGeB coins (.fin 100000) then 5
  else if jsGeB coins (.fin 50000) then 4
  else if jsGeB coins (.fin 10000) then 3
  else if jsGeB coins (.fin 1000) then 2
  else 1

/-- Is the `initData` argument truthy (`none` stands for any falsy value). -/
def initTruthy : Option String → Bool
  | none => false
  | some s => decide (s ≠ "")

/-- The source's `validateInitData` (lines 38–57): unconditionally true when no bot token is
configured or the payload is falsy; otherwise parse the payload as a query
string, extract and remove `hash`, join the remaining pairs sorted by key, and
compare the keyed hash of the joined string against `hash`.  A missing `hash`
compares a string against null, hence false. -/
def validateInitData (hmacHex : String → String → String) (botToken : String)
    (initData : Option String) : Bool :=
  if botToken = "" ∨ initTruthy initData = false then true
  else
    let params := parseQS (initData.getD (""))
    let hash := qsGet params ("hash")
    let rest := params.filter (fun p => !(p.1 == "hash"))
    let sorted := sortLe (fun p q => decide (p.1 ≤ q.1)) rest
    let joined := String.intercalate ("\n") (sorted.map (fun p => p.1 ++ "=" ++ p.2))
    let secretKey := hmacHex ("WebAppData") botToken
    let computed := hmacHex secretKey joined
    match hash with
    | none => false
    | some h => computed == h

/-- The `rateLimits` map. -/
abbrev RateLimits : Type := List (JVal × Int)

/-- The source's `checkRateLimit` (lines 60–67): denied if the last stored timestamp (0 when
absent) is less than 500 ms old; on admission the timestamp is stored. -/
def checkRateLimit (now : Int) (userId : JVal) (rl : RateLimits) : Bool × RateLimits :=
  let last := (lookupA userId rl).getD 0
  if now - last < 500 then (false, rl)
  else (true, setAssocA userId now rl)

/-- The whole mutable server state. -/
structure ServerState : Type where
  users : Users
  rateLimits : RateLimits
deriving DecidableEq

/-- A request body for `POST /api/tap`. -/
structure Body : Type where
  userId : JVal
  userName : JVal
  coins : JVal
  initData : Option String
deriving DecidableEq

/-- Outcome of `handleTap`, by the JSON response it sends. -/
inductive TapResult : Type
  | missingData : TapResult
  | invalidInit : TapResult
  | tooFast : TapResult
  | ok : UserRec → TapResult
deriving DecidableEq

/-- Did `handleTap` answer 200. -/
def TapResult.isOk : TapResult → Bool
  | .ok _ => true
  | _ => false

/-- The clamp of line 93: `Math.min(Math.max(0, Math.floor(coins)), 50)`. -/
def safeCoins (coins : JVal) : JSNumber :=
  jsMinN (jsMaxN (.fin 0) (jsFloor (toNumber coins))) (.fin 50)

/-- The record written by the merge of lines 95–100. -/
def mergedUser (now : Int) (b : Body) (st : ServerState) : UserRec :=
  let u0 := (getUser now b.userId st.users).1
  { u0 with
    userName := if truthy b.userName then b.userName else u0.userName
    coins := jsAdd u0.coins (safeCoins b.coins)
    totalTaps := jsAdd u0.totalTaps (safeCoins b.coins)
    level := calculateLevel (jsAdd u0.coins (safeCoins b.coins))
    lastTap := now }

/-- The source's `handleTap` (lines 75–103): validation, auth, rate limit, clamp and merge. -/
def handleTap (hmacHex : String → String → String) (botToken : String) (now : Int)
    (b : Body) (st : ServerState) : TapResult × ServerState :=
  if (truthy b.userId && truthy b.coins) = false then (.missingData, st)
  else if validateInitData hmacHex botToken b.initData = false then (.invalidInit, st)
  else if (checkRateLimit now b.userId st.rateLimits).1 = false then
    (.tooFast, { st with rateLimits := (checkRateLimit now b.userId st.rateLimits).2 })
  else
    (.ok (mergedUser now b st),
      { users := setAssocA b.userId (mergedUser now b st) (getUser now b.userId st.users).2
        rateLimits := (checkRateLimit now b.userId st.rateLimits).2 })

/-- The source's `handleGetUser` (lines 70–73): fetch-or-create and return the record. -/
def handleGetUser (now : Int) (userId : JVal) (st : ServerState) : UserRec × ServerState :=
  let p := getUser now userId st.users
  (p.1, { st with users := p.2 })

/-- One entry of the leaderboard response. -/
structure LBEntry : Type where
  userId : JVal
  userName : JVal
  coins : JSNumber
  level : ℕ
deriving DecidableEq

/-- The sort order of line 107: `a` may precede `b` iff the comparator
`b.coins - a.coins` is not positive (NaN compares as 0). -/
def lbLe (a b : UserRec) : Bool :=
  !(jsGtB (jsSub b.coins a.coins) (.fin 0))

/-- The source's `handleLeaderboard` (lines 105–117): sort all records descending by coins,
take the first 100, project the response fields.  Read-only: the state is not
modified (the function returns no new state). -/
def handleLeaderboard (st : ServerState) : List LBEntry :=
  ((sortLe lbLe (st.users.map (·.2))).take 100).map fun u =>
    { userId := u.userId, userName := u.userName, coins := u.coins, level := u.level }

/-- The level-derivation invariant of the store: every stored record's `level`
is `calculateLevel` of its `coins`. -/
def LevelInv (users : Users) : Prop :=
  ∀ p ∈ users, (p : JVal × UserRec).2.level = calculateLevel p.2.coins

/-- The audit-counter invariant of the store: every stored record's
`totalTaps` equals its `coins`. -/
def TapsInv (users : Users) : Prop :=
  ∀ p ∈ users, (p : JVal × UserRec).2.totalTaps = p.2.coins

/-- All records of the store hold finite (non-NaN, non-infinite) coin values. -/
def FinCoins (users : Users) : Prop :=
  ∀ p ∈ users, ∃ q : ℚ, (p : JVal × UserRec).2.coins = JSNumber.fin q

/-! ## Bridge lemmas for the kernel-computable rational operations -/

theorem qAdd_eq (a b : ℚ) : qAdd a b = a + b := by
  have h1 : (a.den : ℚ) ≠ 0 := Nat.cast_ne_zero.mpr a.den_ne_zero
  have h2 : (b.den : ℚ) ≠ 0 := Nat.cast_ne_zero.mpr b.den_ne_zero
  conv_rhs => rw [← Rat.num_div_den a, ← Rat.num_div_den b]
  rw [qAdd, Rat.mkRat_eq_div]
  push_cast
  field_simp

theorem qLtB_iff {a b : ℚ} : qLtB a b = true ↔ a < b := by
  have h1 : (0 : ℚ) < a.den := by exact_mod_cast Nat.pos_of_ne_zero a.den_ne_zero
  have h2 : (0 : ℚ) < b.den := by exact_mod_cast Nat.pos_of_ne_zero b.den_ne_zero
  have h3 : a < b ↔ (a.num : ℚ) / a.den < (b.num : ℚ) / b.den := by
    rw [Rat.num_div_den, Rat.num_div_den]
  rw [qLtB, decide_eq_true_eq, h3, div_lt_div_iff₀ h1 h2]
  constructor <;> intro h <;> exact_mod_cast h

theorem qLeB_iff {a b : ℚ} : qLeB a b = true ↔ a ≤ b := by
  have h1 : (0 : ℚ) < a.den := by exact_mod_cast Nat.pos_of_ne_zero a.den_ne_zero
  have h2 : (0 : ℚ) < b.den := by exact_mod_cast Nat.pos_of_ne_zero b.den_ne_zero
  have h3 : a ≤ b ↔ (a.num : ℚ) / a.den ≤ (b.num : ℚ) / b.den := by
    rw [Rat.num_div_den, Rat.num_div_den]
  rw [qLeB, decide_eq_true_eq, h3, div_le_div_iff₀ h1 h2]
  constructor <;> intro h <;> exact_mod_cast h

theorem ratFloor_eq (a : ℚ) : Rat.floor a = ⌊a⌋ := by
  rw [Rat.floor_def, Rat.floor_def']

/-! ## Association-list lemmas -/

theorem lookupA_setAssocA_self {β : Type} (k : JVal) (v : β) (l : List (JVal × β)) :
    lookupA k (setAssocA k v l) = some v := by
  induction l with
  | nil => simp [setAssocA, lookupA]
  | cons p r ih =>
    by_cases h : k = p.1
    · simp [setAssocA, h, lookupA]
    · simp [setAssocA, h, lookupA, ih]

theorem lookupA_mem {β : Type} {k : JVal} {v : β} {l : List (JVal × β)}
    (h : lookupA k l = some v) : (k, v) ∈ l := by
  induction l with
  | nil => simp [lookupA] at h
  | cons p r ih =>
    by_cases hk : k = p.1
    · subst hk
      simp [lookupA] at h
      subst h
      simp
    · simp only [lookupA, if_neg hk] at h
      exact List.mem_cons_of_mem _ (ih h)

theorem mem_setAssocA {β : Type} {k : JVal} {v : β} {p : JVal × β} {l : List (JVal × β)}
    (h : p ∈ setAssocA k v l) : p = (k, v) ∨ p ∈ l := by
  induction l with
  | nil => simpa [setAssocA] using h
  | cons q r ih =>
    simp only [setAssocA] at h
    by_cases hk : k = q.1
    · rw [if_pos hk] at h
      rcases List.mem_cons.mp h with h2 | h2
      · left; exact h2
      · right; exact List.mem_cons_of_mem _ h2
    · rw [if_neg hk] at h
      rcases List.mem_cons.mp h with h2 | h2
      · right
        rw [h2]
        exact List.mem_cons_self _ _
      · rcases ih h2 with h3 | h3
        · left; exact h3
        · right; exact List.mem_cons_of_mem _ h3

/-! ## Rate-limiter lemmas -/

theorem checkRateLimit_denied {now : Int} {k : JVal} {rl : RateLimits}
    (h : (checkRateLimit now k rl).1 = false) : (checkRateLimit now k rl).2 = rl := by
  by_cases hc : now - (lookupA k rl).getD 0 < 500
  · simp [checkRateLimit, hc]
  · rw [checkRateLimit] at h
    simp [hc] at h

theorem checkRateLimit_admitted {now : Int} {k : JVal} {rl : RateLimits}
    (h : (checkRateLimit now k rl).1 = true) :
    (checkRateLimit now k rl).2 = setAssocA k now rl := by
  by_cases hc : now - (lookupA k rl).getD 0 < 500
  · rw [checkRateLimit] at h
    simp [hc] at h
  · simp [checkRateLimit, hc]

theorem checkRateLimit_recent {now last : Int} {k : JVal} {rl : RateLimits}
    (hl : lookupA k rl = some last) (hwin : now - last < 500) :
    checkRateLimit now k rl = (false, rl) := by
  simp [checkRateLimit, hl, hwin]

/-! ## `handleTap` shape lemmas -/

theorem handleTap_not_ok_eq {hmacHex : String → String → String} {botToken : String}
    {now : Int} {b : Body} {st : ServerState}
    (h : (handleTap hmacHex botToken now b st).1.isOk = false) :
    (handleTap hmacHex botToken now b st).2 = st := by
  by_cases h1 : (truthy b.userId && truthy b.coins) = false
  · simp [handleTap, h1]
  · by_cases h2 : validateInitData hmacHex botToken b.initData = false
    · simp [handleTap, h1, h2]
    · by_cases h3 : (checkRateLimit now b.userId st.rateLimits).1 = false
      · simp [handleTap, h1, h2, h3, checkRateLimit_denied h3]
      · rw [handleTap] at h
        simp [h1, h2, h3, TapResult.isOk] at h

theorem handleTap_ok_eq {hmacHex : String → String → String} {botToken : String}
    {now : Int} {b : Body} {st : ServerState} {u : UserRec}
    (h : (handleTap hmacHex botToken now b st).1 = TapResult.ok u) :
    u = mergedUser now b st ∧
      (handleTap hmacHex botToken now b st).2 =
        { users := setAssocA b.userId (mergedUser now b st) (getUser now b.userId st.users).2
          rateLimits := setAssocA b.userId now st.rateLimits } := by
  by_cases h1 : (truthy b.userId && truthy b.coins) = false
  · rw [handleTap] at h
    simp [h1] at h
  · by_cases h2 : validateInitData hmacHex botToken b.initData = false
    · rw [handleTap] at h
      simp [h1, h2] at h
    · by_cases h3 : (checkRateLimit now b.userId st.rateLimits).1 = false
      · rw [handleTap] at h
        simp [h1, h2, h3] at h
      · have hadm : (checkRateLimit now b.userId st.rateLimits).1 = true := by
          revert h3
          cases (checkRateLimit now b.userId st.rateLimits).1 <;> simp
        have hu : u = mergedUser now b st := by
          rw [handleTap] at h
          simp [h1, h2, h3] at h
          exact h.symm
        refine ⟨hu, ?_⟩
        rw [handleTap]
        simp [h1, h2, h3, checkRateLimit_admitted hadm]

/-! ## Comparison and clamp lemmas -/

theorem jsGtB_fin (a b : ℚ) : jsGtB (.fin a) (.fin b) = true ↔ b < a := by
  simp [jsGtB, qLtB_iff]

theorem jsGeB_fin (a b : ℚ) : jsGeB (.fin a) (.fin b) = true ↔ b ≤ a := by
  simp [jsGeB, qLeB_iff]

theorem jsMaxN_fin (a b : ℚ) : jsMaxN (.fin a) (.fin b) = .fin (max a b) := by
  rw [jsMaxN, if_neg (by simp)]
  by_cases h : a < b
  · rw [if_pos ((jsGtB_fin b a).mpr h), max_eq_right h.le]
  · rw [if_neg (fun hc => h ((jsGtB_fin b a).mp hc)), max_eq_left (not_lt.mp h)]

theorem jsMinN_fin (a b : ℚ) : jsMinN (.fin a) (.fin b) = .fin (min a b) := by
  rw [jsMinN, if_neg (by simp)]
  by_cases h : b < a
  · rw [if_pos ((jsGtB_fin a b).mpr h), min_eq_right h.le]
  · rw [if_neg (fun hc => h ((jsGtB_fin a b).mp hc)), min_eq_left (not_lt.mp h)]

/-- On a finite numeric input the clamp computes `min (max 0 ⌊q⌋) 50`. -/
theorem safeCoins_fin (q : ℚ) :
    safeCoins (JVal.jnum (JSNumber.fin q)) = JSNumber.fin ((min (max 0 ⌊q⌋) 50 : ℤ) : ℚ) := by
  rw [safeCoins]
  simp only [toNumber, jsFloor]
  rw [ratFloor_eq, jsMaxN_fin, jsMinN_fin]
  congr 1
  norm_cast

/-! ## `getUser` lemmas -/

theorem getUser_cases (now : Int) (uid : JVal) (users : Users) :
    ((uid, (getUser now uid users).1) ∈ users ∧ (getUser now uid users).2 = users)
    ∨ ((getUser now uid users).1 = defaultUser now uid ∧
        (getUser now uid users).2 = users ++ [(uid, defaultUser now uid)]) := by
  rw [getUser]
  cases hl : lookupA uid users with
  | some u => exact Or.inl ⟨lookupA_mem hl, rfl⟩
  | none => exact Or.inr ⟨rfl, rfl⟩

theorem mem_getUser_users {now : Int} {uid : JVal} {users : Users} {p : JVal × UserRec}
    (h : p ∈ (getUser now uid users).2) : p ∈ users ∨ p = (uid, defaultUser now uid) := by
  rw [getUser] at h
  cases hl : lookupA uid users with
  | some u =>
    rw [hl] at h
    exact Or.inl h
  | none =>
    rw [hl] at h
    rcases List.mem_append.mp h with h2 | h2
    · exact Or.inl h2
    · exact Or.inr (by simpa using h2)

/-! ## Sorting lemmas -/

theorem mem_insertLe {α : Type} {le : α → α → Bool} {x a : α} {l : List α}
    (h : a ∈ insertLe le x l) : a = x ∨ a ∈ l := by
  induction l with
  | nil => simpa [insertLe] using h
  | cons y ys ih =>
    simp only [insertLe] at h
    by_cases hc : le x y = true
    · rw [if_pos hc] at h
      rcases List.mem_cons.mp h with h2 | h2
      · left; exact h2
      · right; exact h2
    · rw [if_neg hc] at h
      rcases List.mem_cons.mp h with h2 | h2
      · right
        rw [h2]
        exact List.mem_cons_self _ _
      · rcases ih h2 with h3 | h3
        · left; exact h3
        · right; exact List.mem_cons_of_mem _ h3

theorem mem_sortLe {α : Type} {le : α → α → Bool} {a : α} {l : List α}
    (h : a ∈ sortLe le l) : a ∈ l := by
  induction l with
  | nil => simp [sortLe] at h
  | cons x xs ih =>
    rcases mem_insertLe (by simpa [sortLe] using h) with h2 | h2
    · rw [h2]
      exact List.mem_cons_self _ _
    · exact List.mem_cons_of_mem _ (ih h2)

theorem head?_insertLe {α : Type} (le : α → α → Bool) (x : α) (l : List α) :
    (insertLe le x l).head? = some x ∨ (insertLe le x l).head? = l.head? := by
  cases l with
  | nil => left; rfl
  | cons y ys =>
    by_cases hc : le x y = true
    · left
      simp [insertLe, hc]
    · right
      simp [insertLe, hc]

theorem chain'_insertLe {α : Type} {le : α → α → Bool}
    (conn : ∀ a b, le a b = false → le b a = true) (x : α) :
    ∀ {l : List α}, l.Chain' (fun a b => le a b = true) →
      (insertLe le x l).Chain' (fun a b => le a b = true) := by
  intro l
  induction l with
  | nil =>
    intro _
    simp [insertLe]
  | cons y ys ih =>
    intro h
    rw [List.chain'_cons'] at h
    by_cases hc : le x y = true
    · simp only [insertLe, if_pos hc]
      rw [List.chain'_cons']
      refine ⟨?_, ?_⟩
      · intro z hz
        simp only [List.head?_cons, Option.mem_def, Option.some.injEq] at hz
        rw [← hz]
        exact hc
      · rw [List.chain'_cons']
        exact h
    · simp only [insertLe, if_neg hc]
      rw [List.chain'_cons']
      refine ⟨?_, ih h.2⟩
      intro z hz
      rcases head?_insertLe le x ys with h2 | h2
      · rw [h2] at hz
        simp only [Option.mem_def, Option.some.injEq] at hz
        rw [← hz]
        exact conn x y (by revert hc; cases le x y <;> simp)
      · rw [h2] at hz
        exact h.1 z hz

theorem chain'_sortLe {α : Type} {le : α → α → Bool}
    (conn : ∀ a b, le a b = false → le b a = true) (l : List α) :
    (sortLe le l).Chain' (fun a b => le a b = true) := by
  induction l with
  | nil => simp [sortLe]
  | cons x xs ih => exact chain'_insertLe conn x ih

theorem chain'_imp_mem {α : Type} {R S : α → α → Prop} :
    ∀ {l : List α}, (∀ a ∈ l, ∀ b ∈ l, R a b → S a b) → l.Chain' R → l.Chain' S := by
  intro l
  induction l with
  | nil =>
    intro _ _
    simp
  | cons x xs ih =>
    intro himp h
    rw [List.chain'_cons'] at h ⊢
    refine ⟨?_, ?_⟩
    · intro z hz
      exact himp x (List.mem_cons_self _ _) z
        (List.mem_cons_of_mem _ (List.mem_of_mem_head? hz)) (h.1 z hz)
    · exact ih
        (fun a ha b hb hr => himp a (List.mem_cons_of_mem _ ha) b (List.mem_cons_of_mem _ hb) hr)
        h.2

/-! ## Claims -/

/-- C2 counterexample: a sync with numeric `coins = -5` (which is `≤ 0`) is
not rejected with a 400 `ValidationError`: `!coins` is false for any nonzero
number, so the request passes validation and is accepted with a 200 response
(the clamp reduces the credit to 0, so `totalCoins` stays 0). -/
theorem C2_counterexample :
    (handleTap (fun _ _ => "") "" 1000
        ⟨JVal.jstr ("u1"), JVal.undef, JVal.jnum (JSNumber.fin (-5)), none⟩ ⟨[], []⟩).1
      = TapResult.ok ⟨JVal.jstr ("u1"), JVal.jstr ("Player"), JSNumber.fin 0, JSNumber.fin 0, 1,
          JSNumber.fin 1, 1000⟩ := by
  decide

/-- C2 (amended): a sync whose `coins` field is falsy (0, NaN, absent, null,
false, or the empty string) is rejected with the 400 `Missing data` response
and the whole server state — in particular every record's `totalCoins` — is
unchanged.  (Negative numeric `coins`, being truthy, are not rejected; they
are accepted with a clamped increment of 0.) -/
theorem C2_falsy_coins_rejected (hmacHex : String → String → String) (botToken : String)
    (now : Int) (b : Body) (st : ServerState) (h : truthy b.coins = false) :
    handleTap hmacHex botToken now b st = (TapResult.missingData, st) := by
  rw [handleTap, if_pos (by simp [h])]

/-- C2 witness: the amended theorem applied to a concrete request with
`coins = 0` on the empty store. -/
theorem C2_falsy_coins_rejected_witness :
    handleTap (fun _ _ => "") "" 5
        ⟨JVal.jstr ("u"), JVal.undef, JVal.jnum (JSNumber.fin 0), none⟩ ⟨[], []⟩
      = (TapResult.missingData, ⟨[], []⟩) :=
  C2_falsy_coins_rejected _ _ _ _ _ (by decide)

/-- C3: every error outcome of `handleTap` (validation failure, auth failure,
rate-limit throttle) short-circuits before any mutation: the resulting server
state — the Progress Store and the rate-limit map — is exactly the state
before the call, so no record is created or modified and no other user's
record is affected. -/
theorem C3_error_short_circuits (hmacHex : String → String → String) (botToken : String)
    (now : Int) (b : Body) (st : ServerState)
    (h : (handleTap hmacHex botToken now b st).1.isOk = false) :
    (handleTap hmacHex botToken now b st).2 = st :=
  handleTap_not_ok_eq h

/-- C3 witness: a concrete rejected request (falsy `coins`) leaves a concrete
one-record store untouched. -/
theorem C3_error_short_circuits_witness :
    ((handleTap (fun _ _ => "") "" 7
        ⟨JVal.jstr ("u"), JVal.undef, JVal.jnum JSNumber.nan, none⟩
        ⟨[(JVal.jstr ("v"), defaultUser 0 (JVal.jstr ("v")))], []⟩).1.isOk = false)
    ∧ (handleTap (fun _ _ => "") "" 7
        ⟨JVal.jstr ("u"), JVal.undef, JVal.jnum JSNumber.nan, none⟩
        ⟨[(JVal.jstr ("v"), defaultUser 0 (JVal.jstr ("v")))], []⟩).2
      = ⟨[(JVal.jstr ("v"), defaultUser 0 (JVal.jstr ("v")))], []⟩ :=
  ⟨by decide, C3_error_short_circuits _ _ _ _ _ (by decide)⟩

/-- C6: the claim that `totalCoins` always remains a non-negative integer
fails on the code.  A request with the truthy non-numeric value
`coins = "abc"` passes the `!coins` validation, `Math.floor("abc")` is NaN,
the clamp propagates NaN, and the merge stores `coins = NaN` (and
`totalTaps = NaN`) while answering 200.  This run evaluates the model at that
failing input. -/
theorem C6_nan_contaminates_store :
    (handleTap (fun _ _ => "") "" 1000
        ⟨JVal.jstr ("u1"), JVal.undef, JVal.jstr ("abc"), none⟩ ⟨[], []⟩).1
      = TapResult.ok ⟨JVal.jstr ("u1"), JVal.jstr ("Player"), JSNumber.nan, JSNumber.nan, 1,
          JSNumber.fin 1, 1000⟩ := by
  decide

/-- C9 counterexample: an attempt rejected at the auth gate does not advance
the rate limiter's stored timestamp — `checkRateLimit` is only reached after
`validateInitData` succeeds.  With a configured token and a payload lacking a
`hash` field, the call returns 403 and the rate-limit map stays empty instead
of recording the attempt time 1000. -/
theorem C9_counterexample :
    (handleTap (fun _ _ => "x") "t" 1000
        ⟨JVal.jstr ("u"), JVal.undef, JVal.jnum (JSNumber.fin 5), some ("a=1")⟩ ⟨[], []⟩).1
      = TapResult.invalidInit
    ∧ (handleTap (fun _ _ => "x") "t" 1000
        ⟨JVal.jstr ("u"), JVal.undef, JVal.jnum (JSNumber.fin 5), some ("a=1")⟩ ⟨[], []⟩).2.rateLimits
      = [] := by
  exact ⟨by decide, by decide⟩

/-- C9 (amended): the rate limiter's stored timestamp for `userId` advances to
the attempt time exactly on attempts that pass validation and auth and are
admitted by the limiter — equivalently, exactly on attempts answered 200
(nothing downstream of the limiter can fail).  Attempts rejected by
validation, by auth, or by the cooldown itself leave the stored timestamp
unchanged. -/
theorem C9_timestamp_iff_admitted (hmacHex : String → String → String) (botToken : String)
    (now : Int) (b : Body) (st : ServerState) :
    (handleTap hmacHex botToken now b st).2.rateLimits =
      if (handleTap hmacHex botToken now b st).1.isOk = true
      then setAssocA b.userId now st.rateLimits
      else st.rateLimits := by
  by_cases hok : (handleTap hmacHex botToken now b st).1.isOk = true
  · rw [if_pos hok]
    cases h : (handleTap hmacHex botToken now b st).1 with
    | ok u => rw [(handleTap_ok_eq h).2]
    | missingData =>
      rw [h] at hok
      simp [TapResult.isOk] at hok
    | invalidInit =>
      rw [h] at hok
      simp [TapResult.isOk] at hok
    | tooFast =>
      rw [h] at hok
      simp [TapResult.isOk] at hok
  · rw [if_neg hok,
      handleTap_not_ok_eq
        (by revert hok; cases (handleTap hmacHex botToken now b st).1.isOk <;> simp)]

/-- C1: for every sync accepted by `handleTap` whose `coins` is a (finite)
numeric value `q`, the amount added to the stored `totalCoins` is exactly
`min (max 0 ⌊q⌋) 50`; in particular for every `q > 50` the clamped increment
is exactly 50 (`MAX_DELTA_PER_SYNC`). -/
theorem C1_accepted_increment_clamped (hmacHex : String → String → String)
    (botToken : String) (now : Int) (b : Body) (st : ServerState) (q : ℚ) (u : UserRec)
    (hq : b.coins = JVal.jnum (JSNumber.fin q))
    (hok : (handleTap hmacHex botToken now b st).1 = TapResult.ok u) :
    u.coins = jsAdd ((getUser now b.userId st.users).1).coins
        (JSNumber.fin ((min (max 0 ⌊q⌋) 50 : ℤ) : ℚ))
    ∧ (50 < q → (min (max 0 ⌊q⌋) 50 : ℤ) = 50) := by
  refine ⟨?_, ?_⟩
  · rw [(handleTap_ok_eq hok).1]
    simp only [mergedUser]
    rw [hq, safeCoins_fin]
  · intro h50
    have h1 : (50 : ℤ) ≤ ⌊q⌋ := Int.le_floor.mpr (by exact_mod_cast h50.le)
    have h2 : (0 : ℤ) ≤ ⌊q⌋ := le_trans (by norm_num) h1
    rw [max_eq_right h2]
    exact min_eq_right h1

/-- C1 witness: a concrete accepted sync with `coins = 60 > 50` on the empty
store credits exactly 50. -/
theorem C1_accepted_increment_clamped_witness :
    (⟨JVal.jstr ("u1"), JVal.jstr ("Player"), JSNumber.fin 50, JSNumber.fin 50, 1, JSNumber.fin 1,
        1000⟩ : UserRec).coins
      = jsAdd ((getUser 1000 (JVal.jstr ("u1")) ([] : Users)).1).coins
          (JSNumber.fin ((min (max 0 ⌊(60 : ℚ)⌋) 50 : ℤ) : ℚ))
    ∧ (50 < (60 : ℚ) → (min (max 0 ⌊(60 : ℚ)⌋) 50 : ℤ) = 50) :=
  C1_accepted_increment_clamped (fun _ _ => "") "" 1000
    ⟨JVal.jstr ("u1"), JVal.undef, JVal.jnum (JSNumber.fin 60), none⟩ ⟨[], []⟩ 60 _
    rfl (by decide)

/-- C5: if a sync for a user is accepted at time `t1` and a second sync for
the same `userId` that passes validation and auth arrives at time `t2` with
`t2 - t1 < 500` (inside the cooldown window), the second is rejected with the
429 `Too fast` response and the state — hence `totalCoins` — still reflects
only the first sync. -/
theorem C5_second_sync_throttled (hmacHex : String → String → String) (botToken : String)
    (t1 t2 : Int) (b1 b2 : Body) (st : ServerState) (u : UserRec)
    (hok : (handleTap hmacHex botToken t1 b1 st).1 = TapResult.ok u)
    (hid : b2.userId = b1.userId)
    (hu2 : truthy b2.userId = true) (hc2 : truthy b2.coins = true)
    (ha2 : validateInitData hmacHex botToken b2.initData = true)
    (hwin : t2 - t1 < 500) :
    handleTap hmacHex botToken t2 b2 (handleTap hmacHex botToken t1 b1 st).2
      = (TapResult.tooFast, (handleTap hmacHex botToken t1 b1 st).2) := by
  have hst1 := (handleTap_ok_eq hok).2
  have hrl : (handleTap hmacHex botToken t1 b1 st).2.rateLimits
      = setAssocA b1.userId t1 st.rateLimits := by
    rw [hst1]
  have hlook : lookupA b2.userId (handleTap hmacHex botToken t1 b1 st).2.rateLimits
      = some t1 := by
    rw [hid, hrl]
    exact lookupA_setAssocA_self _ _ _
  have hcr := checkRateLimit_recent hlook hwin
  rw [handleTap, if_neg (by simp [hu2, hc2]), if_neg (by simp [ha2]),
    if_pos (by rw [hcr]), hcr]

/-- C5 witness: two concrete identical syncs 200 ms apart; the second is
throttled and the state is that of the first alone. -/
theorem C5_second_sync_throttled_witness :
    handleTap (fun _ _ => "") "" 1200
        ⟨JVal.jstr ("u"), JVal.undef, JVal.jnum (JSNumber.fin 30), none⟩
        (handleTap (fun _ _ => "") "" 1000
          ⟨JVal.jstr ("u"), JVal.undef, JVal.jnum (JSNumber.fin 30), none⟩ ⟨[], []⟩).2
      = (TapResult.tooFast,
          (handleTap (fun _ _ => "") "" 1000
            ⟨JVal.jstr ("u"), JVal.undef, JVal.jnum (JSNumber.fin 30), none⟩ ⟨[], []⟩).2) :=
  C5_second_sync_throttled (fun _ _ => "") "" 1000 1200
    ⟨JVal.jstr ("u"), JVal.undef, JVal.jnum (JSNumber.fin 30), none⟩
    ⟨JVal.jstr ("u"), JVal.undef, JVal.jnum (JSNumber.fin 30), none⟩ ⟨[], []⟩
    ⟨JVal.jstr ("u"), JVal.jstr ("Player"), JSNumber.fin 30, JSNumber.fin 30, 1, JSNumber.fin 1,
      1000⟩
    (by decide) rfl (by decide) (by decide) (by decide) (by decide)

/-- C7: `validateInitData` returns true unconditionally whenever no bot token
is configured or the payload is falsy; and with a token configured, a truthy
payload whose parse contains no `hash` field is rejected (returns false) —
the model is a total function, so no exception can reach the caller. -/
theorem C7_verify_policy (hmacHex : String → String → String) (botToken : String)
    (initData : Option String) :
    ((botToken = "" ∨ initTruthy initData = false) →
      validateInitData hmacHex botToken initData = true)
    ∧ (botToken ≠ "" → initTruthy initData = true →
        qsGet (parseQS (initData.getD (""))) "hash" = none →
        validateInitData hmacHex botToken initData = false) := by
  refine ⟨?_, ?_⟩
  · intro h
    rw [validateInitData, if_pos h]
  · intro hbt htr hhash
    rw [validateInitData, if_neg (by simp [hbt, htr])]
    simp only [hhash]

/-- C7 witness: with no token the verifier passes any payload; with a token
configured, the hash-less payload `a=1` is rejected. -/
theorem C7_verify_policy_witness :
    validateInitData (fun _ _ => "zz") "" (some ("a=1")) = true
    ∧ validateInitData (fun _ _ => "zz") "t" (some ("a=1")) = false :=
  ⟨(C7_verify_policy (fun _ _ => "zz") "" (some ("a=1"))).1 (Or.inl rfl),
    (C7_verify_policy (fun _ _ => "zz") "t" (some ("a=1"))).2 (by decide) (by decide) (by decide)⟩

/-! ## Level lemmas -/

theorem calculateLevel_fin (q : ℚ) :
    calculateLevel (.fin q) =
      if 100000 ≤ q then 5 else if 50000 ≤ q then 4 else if 10000 ≤ q then 3
      else if 1000 ≤ q then 2 else 1 := by
  rw [calculateLevel]
  by_cases h1 : (100000 : ℚ) ≤ q
  · rw [if_pos ((jsGeB_fin q 100000).mpr h1), if_pos h1]
  · rw [if_neg (fun hc => h1 ((jsGeB_fin q 100000).mp hc)), if_neg h1]
    by_cases h2 : (50000 : ℚ) ≤ q
    · rw [if_pos ((jsGeB_fin q 50000).mpr h2), if_pos h2]
    · rw [if_neg (fun hc => h2 ((jsGeB_fin q 50000).mp hc)), if_neg h2]
      by_cases h3 : (10000 : ℚ) ≤ q
      · rw [if_pos ((jsGeB_fin q 10000).mpr h3), if_pos h3]
      · rw [if_neg (fun hc => h3 ((jsGeB_fin q 10000).mp hc)), if_neg h3]
        by_cases h4 : (1000 : ℚ) ≤ q
        · rw [if_pos ((jsGeB_fin q 1000).mpr h4), if_pos h4]
        · rw [if_neg (fun hc => h4 ((jsGeB_fin q 1000).mp hc)), if_neg h4]

theorem calculateLevel_mono {q r : ℚ} (h : q ≤ r) :
    calculateLevel (.fin q) ≤ calculateLevel (.fin r) := by
  rw [calculateLevel_fin, calculateLevel_fin]
  split_ifs <;> first | (exfalso; linarith) | norm_num

theorem mergedUser_level (now : Int) (b : Body) (st : ServerState) :
    (mergedUser now b st).level = calculateLevel (mergedUser now b st).coins := by
  simp [mergedUser]

theorem defaultUser_level (now : Int) (uid : JVal) :
    (defaultUser now uid).level = calculateLevel (defaultUser now uid).coins := by
  simp only [defaultUser]
  decide

theorem mergedUser_taps (now : Int) (b : Body) (st : ServerState) (hinv : TapsInv st.users) :
    (mergedUser now b st).totalTaps = (mergedUser now b st).coins := by
  rcases getUser_cases now b.userId st.users with ⟨hmem, _⟩ | ⟨hdef, _⟩
  · have h := hinv _ hmem
    simp only [mergedUser]
    rw [h]
  · simp only [mergedUser]
    rw [hdef]
    rfl

/-- C4: the level-derivation invariant `level = calculateLevel totalCoins`
holds for every stored record after any `handleTap` and any `handleGetUser`
(lazy creation included); `calculateLevel` is monotone non-decreasing on
finite coin values and matches the fixed thresholds
`<1000 → 1, <10000 → 2, <50000 → 3, <100000 → 4, ≥100000 → 5`. -/
theorem C4_level_invariant (hmacHex : String → String → String) (botToken : String)
    (now : Int) (b : Body) (uid : JVal) (st : ServerState) (hinv : LevelInv st.users) :
    LevelInv (handleTap hmacHex botToken now b st).2.users
    ∧ LevelInv (handleGetUser now uid st).2.users
    ∧ (∀ q r : ℚ, q ≤ r → calculateLevel (.fin q) ≤ calculateLevel (.fin r))
    ∧ (∀ q : ℚ, calculateLevel (.fin q) =
        if 100000 ≤ q then 5 else if 50000 ≤ q then 4 else if 10000 ≤ q then 3
        else if 1000 ≤ q then 2 else 1) := by
  refine ⟨?_, ?_, fun q r h => calculateLevel_mono h, fun q => calculateLevel_fin q⟩
  · by_cases hok : (handleTap hmacHex botToken now b st).1.isOk = true
    · cases hres : (handleTap hmacHex botToken now b st).1 with
      | ok u =>
        rw [(handleTap_ok_eq hres).2]
        intro p hp
        rcases mem_setAssocA hp with hp2 | hp2
        · rw [hp2]
          exact mergedUser_level now b st
        · rcases mem_getUser_users hp2 with hp3 | hp3
          · exact hinv p hp3
          · rw [hp3]
            exact defaultUser_level now b.userId
      | missingData =>
        rw [hres] at hok
        simp [TapResult.isOk] at hok
      | invalidInit =>
        rw [hres] at hok
        simp [TapResult.isOk] at hok
      | tooFast =>
        rw [hres] at hok
        simp [TapResult.isOk] at hok
    · rw [handleTap_not_ok_eq
        (by revert hok; cases (handleTap hmacHex botToken now b st).1.isOk <;> simp)]
      exact hinv
  · rw [handleGetUser]
    intro p hp
    rcases mem_getUser_users hp with hp2 | hp2
    · exact hinv p hp2
    · rw [hp2]
      exact defaultUser_level now uid

/-- C4 witness: the invariant-preservation and monotonicity statement applied
to a concrete request on the empty store. -/
theorem C4_level_invariant_witness :
    LevelInv (handleTap (fun _ _ => "") "" 1000
        ⟨JVal.jstr ("u"), JVal.undef, JVal.jnum (JSNumber.fin 30), none⟩ ⟨[], []⟩).2.users
    ∧ LevelInv (handleGetUser 1000 (JVal.jstr ("z")) ⟨[], []⟩).2.users
    ∧ (∀ q r : ℚ, q ≤ r → calculateLevel (.fin q) ≤ calculateLevel (.fin r))
    ∧ (∀ q : ℚ, calculateLevel (.fin q) =
        if 100000 ≤ q then 5 else if 50000 ≤ q then 4 else if 10000 ≤ q then 3
        else if 1000 ≤ q then 2 else 1) :=
  C4_level_invariant (fun _ _ => "") "" 1000
    ⟨JVal.jstr ("u"), JVal.undef, JVal.jnum (JSNumber.fin 30), none⟩ (JVal.jstr ("z")) ⟨[], []⟩
    (by intro p hp; simp at hp)

/-- C10: the implicit invariant `totalTaps = totalCoins` holds for every
stored record: both are created equal (0) and every accepted sync adds the
same clamped amount to each; it is preserved by `handleTap` and by the lazy
creation of `handleGetUser`. -/
theorem C10_taps_equals_coins (hmacHex : String → String → String) (botToken : String)
    (now : Int) (b : Body) (uid : JVal) (st : ServerState) (hinv : TapsInv st.users) :
    TapsInv (handleTap hmacHex botToken now b st).2.users
    ∧ TapsInv (handleGetUser now uid st).2.users := by
  refine ⟨?_, ?_⟩
  · by_cases hok : (handleTap hmacHex botToken now b st).1.isOk = true
    · cases hres : (handleTap hmacHex botToken now b st).1 with
      | ok u =>
        rw [(handleTap_ok_eq hres).2]
        intro p hp
        rcases mem_setAssocA hp with hp2 | hp2
        · rw [hp2]
          exact mergedUser_taps now b st hinv
        · rcases mem_getUser_users hp2 with hp3 | hp3
          · exact hinv p hp3
          · rw [hp3]
            rfl
      | missingData =>
        rw [hres] at hok
        simp [TapResult.isOk] at hok
      | invalidInit =>
        rw [hres] at hok
        simp [TapResult.isOk] at hok
      | tooFast =>
        rw [hres] at hok
        simp [TapResult.isOk] at hok
    · rw [handleTap_not_ok_eq
        (by revert hok; cases (handleTap hmacHex botToken now b st).1.isOk <;> simp)]
      exact hinv
  · rw [handleGetUser]
    intro p hp
    rcases mem_getUser_users hp with hp2 | hp2
    · exact hinv p hp2
    · rw [hp2]
      rfl

/-- C10 witness: the audit-counter invariant applied to a concrete accepted
sync on the empty store. -/
theorem C10_taps_equals_coins_witness :
    TapsInv (handleTap (fun _ _ => "") "" 1000
        ⟨JVal.jstr ("u"), JVal.undef, JVal.jnum (JSNumber.fin 30), none⟩ ⟨[], []⟩).2.users
    ∧ TapsInv (handleGetUser 1000 (JVal.jstr ("z")) ⟨[], []⟩).2.users :=
  C10_taps_equals_coins (fun _ _ => "") "" 1000
    ⟨JVal.jstr ("u"), JVal.undef, JVal.jnum (JSNumber.fin 30), none⟩ (JVal.jstr ("z")) ⟨[], []⟩
    (by intro p hp; simp at hp)

/-! ## Leaderboard comparator lemmas -/

theorem qLtB_iff_false {a b : ℚ} : qLtB a b = false ↔ ¬ a < b := by
  rw [← Bool.not_eq_true, qLtB_iff]

theorem jsSub_pos_asymm (x y : JSNumber) (h : jsGtB (jsSub x y) (.fin 0) = true) :
    jsGtB (jsSub y x) (.fin 0) = false := by
  cases x <;> cases y <;>
    simp_all [jsSub, jsNeg, jsAdd, jsGtB, qLtB_iff, qLtB_iff_false, qAdd_eq]
  linarith

theorem lbLe_conn (a b : UserRec) (h : lbLe a b = false) : lbLe b a = true := by
  rw [lbLe] at h ⊢
  simp only [Bool.not_eq_false'] at h
  simp only [Bool.not_eq_true']
  exact jsSub_pos_asymm _ _ h

theorem lbLe_fin {a b : UserRec} {qa qb : ℚ} (ha : a.coins = JSNumber.fin qa)
    (hb : b.coins = JSNumber.fin qb) (h : lbLe a b = true) : qb ≤ qa := by
  rw [lbLe, ha, hb] at h
  simp only [jsSub, jsNeg, jsAdd, jsGtB, Bool.not_eq_true', qLtB_iff_false, qAdd_eq] at h
  linarith

/-- C8: for every store whose records hold finite coin values,
`handleLeaderboard` returns at most 100 entries and the returned sequence is
sorted descending by coins; the call is read-only by construction — it maps a
state to a response list and returns no modified state, mirroring the source,
which only reads `users`. -/
theorem C8_leaderboard_sorted_capped (st : ServerState) (hfin : FinCoins st.users) :
    (handleLeaderboard st).length ≤ 100
    ∧ (handleLeaderboard st).Chain' (fun a b => jsGeB a.coins b.coins = true) := by
  refine ⟨?_, ?_⟩
  · rw [handleLeaderboard]
    rw [List.length_map, List.length_take]
    exact min_le_left _ _
  · have hmem : ∀ u ∈ sortLe lbLe (st.users.map (·.2)), ∃ q, u.coins = JSNumber.fin q := by
      intro u hu
      rcases List.mem_map.mp (mem_sortLe hu) with ⟨p, hp, hpu⟩
      rcases hfin p hp with ⟨q, hq⟩
      exact ⟨q, by rw [← hpu]; exact hq⟩
    have hchain : (sortLe lbLe (st.users.map (·.2))).Chain'
        (fun a b : UserRec => jsGeB a.coins b.coins = true) := by
      refine chain'_imp_mem ?_ (chain'_sortLe lbLe_conn (st.users.map (·.2)))
      intro a ha b hb hr
      rcases hmem a ha with ⟨qa, hqa⟩
      rcases hmem b hb with ⟨qb, hqb⟩
      rw [hqa, hqb, jsGeB_fin]
      exact lbLe_fin hqa hqb hr
    rw [handleLeaderboard]
    exact (List.chain'_map _).mpr (hchain.take 100)

/-- C8 witness: the theorem applied to a concrete two-record store with
out-of-order coin values. -/
theorem C8_leaderboard_sorted_capped_witness :
    (handleLeaderboard ⟨[(JVal.jstr ("a"), defaultUser 0 (JVal.jstr ("a"))),
        (JVal.jstr ("b"), ⟨JVal.jstr ("b"), JVal.jstr ("Player"), JSNumber.fin 7, JSNumber.fin 7, 1,
          JSNumber.fin 1, 0⟩)], []⟩).length ≤ 100
    ∧ (handleLeaderboard ⟨[(JVal.jstr ("a"), defaultUser 0 (JVal.jstr ("a"))),
        (JVal.jstr ("b"), ⟨JVal.jstr ("b"), JVal.jstr ("Player"), JSNumber.fin 7, JSNumber.fin 7, 1,
          JSNumber.fin 1, 0⟩)], []⟩).Chain' (fun a b => jsGeB a.coins b.coins = true) :=
  C8_leaderboard_sorted_capped _ (by
    intro p hp
    rcases List.mem_cons.mp hp with h1 | h1
    · exact ⟨0, by rw [h1]; rfl⟩
    · rcases List.mem_singleton.mp h1 with h2
      exact ⟨7, by rw [h2]⟩)

end TapCoin
